import Mathlib

/-!
Verification of the pty_runner terminal-capture pipeline
(src/pty_runner/src/main.rs): the byte-stream filters
`normalize_line_endings` and `filter_osc_sequences`, the color resolver
`ansi_to_rgb`, the serializers `print_hex_state` and `print_text_state`,
and the child-wait loop of `main`.
-/

namespace PtyRunner

/-- Bytes are modelled as natural numbers.  The Rust code reads them from
`u8` buffers, so in any actual run every element is below 256; the stream
filters below treat all bytes uniformly, so no modular arithmetic arises. -/
abbrev Byte := Nat

/-- Translation of `normalize_line_endings` (main.rs lines 17-42).  The
Rust loop checks, at index `i`: a `\r` immediately followed by `\n` is
copied as the pair and both bytes are consumed; otherwise a `\n` is
replaced by `\r\n`; otherwise a lone `\r` is copied; otherwise the byte is
copied.  `rest.head? = some 10` renders `i + 1 < data.len() && data[i+1] == b'\n'`. -/
def normalize_line_endings : List Byte → List Byte
  | [] => []
  | b :: rest =>
    if b = 13 ∧ rest.head? = some 10 then
      13 :: 10 :: normalize_line_endings rest.tail
    else if b = 10 then
      13 :: 10 :: normalize_line_endings rest
    else
      b :: normalize_line_endings rest
termination_by l => l.length
decreasing_by
  · simp only [List.length_cons]
    have := List.length_tail rest
    omega
  · simp
  · simp

/-- Translation of the inner skip loop of `filter_osc_sequences`
(main.rs lines 56-67): starting just after an `ESC ]` prefix, consume
bytes until a BEL (7) is consumed, or an `ESC \` pair (27, 92) is
consumed, or the input ends. -/
def skip_osc : List Byte → List Byte
  | [] => []
  | b :: rest =>
    if b = 7 then rest
    else if b = 27 ∧ rest.head? = some 92 then rest.tail
    else skip_osc rest

/-- Translation of `filter_osc_sequences` (main.rs lines 47-76): a byte
pair `ESC ]` (27, 93) starts an OSC span, which is skipped by
`skip_osc`; every byte outside such a span is copied. -/
def filter_osc_sequences : List Byte → List Byte
  | [] => []
  | b :: rest =>
    if b = 27 ∧ rest.head? = some 93 then
      filter_osc_sequences (skip_osc rest.tail)
    else
      b :: filter_osc_sequences rest
termination_by l => l.length
decreasing_by
  · have hskip : ∀ l : List Byte, (skip_osc l).length ≤ l.length := by
      intro l
      induction l with
      | nil => simp [skip_osc]
      | cons c r ih =>
        simp only [skip_osc]
        split
        · simp
        · split
          · have := List.length_tail r
            simp only [List.length_cons]
            omega
          · simp only [List.length_cons]
            omega
    have h1 := hskip rest.tail
    have h2 := List.length_tail rest
    simp only [List.length_cons]
    omega
  · simp

/-- One step of the specification reading of line-ending normalization:
given the previous input byte `p` (none at the start of the input), a
`\n` (10) whose predecessor is not `\r` (13) expands to `\r\n`; every
other byte is emitted unchanged. -/
def lf_step (p : Option Byte) (b : Byte) : List Byte :=
  if b = 10 ∧ p ≠ some 13 then [13, 10] else [b]

/-- Specification reading of `normalize_line_endings`, following the
spec's words: walk the input remembering the previous input byte and
apply `lf_step` at each position. -/
def spec_normalize_aux : Option Byte → List Byte → List Byte
  | _, [] => []
  | p, b :: rest => lf_step p b ++ spec_normalize_aux (some b) rest

/-- Specification reading of line-ending normalization: a lone `\n` (one
not immediately preceded by `\r` in the input) becomes `\r\n`, an
existing `\r\n` pair is preserved, a lone `\r` is preserved, all other
bytes pass through unchanged. -/
def spec_normalize (l : List Byte) : List Byte :=
  spec_normalize_aux none l

/-- Specification reading of the OSC terminator search: the number of
bytes occupied by the input up to and including its first terminator,
where a terminator is a BEL (7, one byte) or an `ESC \` pair
(27 then 92, two bytes); `none` when no terminator occurs. -/
def first_osc_terminator : List Byte → Option Nat
  | [] => none
  | b :: rest =>
    if b = 7 then some 1
    else if b = 27 ∧ rest.head? = some 92 then some 2
    else (first_osc_terminator rest).map (· + 1)

/-- Specification reading of the OSC skip: discard all bytes up to and
including the first terminator; when the terminator is missing, discard
to end-of-input. -/
def spec_skip_osc (l : List Byte) : List Byte :=
  match first_osc_terminator l with
  | none => []
  | some k => l.drop k

/-- Translation of `ansi_to_rgb` (main.rs lines 362-397): the sixteen
fixed palette entries, the 6x6x6 color cube for 16-231, and the
grayscale ramp for 232-255.  In the Rust code `idx` is a `u8`, so the
function is only ever applied below 256. -/
def ansi_to_rgb (idx : Nat) : Nat × Nat × Nat :=
  if idx = 0 then (0, 0, 0)
  else if idx = 1 then (205, 49, 49)
  else if idx = 2 then (13, 188, 121)
  else if idx = 3 then (229, 229, 16)
  else if idx = 4 then (36, 114, 200)
  else if idx = 5 then (188, 63, 188)
  else if idx = 6 then (17, 168, 205)
  else if idx = 7 then (229, 229, 229)
  else if idx = 8 then (102, 102, 102)
  else if idx = 9 then (241, 76, 76)
  else if idx = 10 then (35, 209, 139)
  else if idx = 11 then (245, 245, 67)
  else if idx = 12 then (59, 142, 234)
  else if idx = 13 then (214, 112, 214)
  else if idx = 14 then (41, 184, 219)
  else if idx = 15 then (255, 255, 255)
  else if idx ≤ 231 then
    let n := idx - 16
    let r := (n / 36) % 6
    let g := (n / 6) % 6
    let b := n % 6
    let toVal := fun (x : Nat) => if x = 0 then 0 else 55 + x * 40
    (toVal r, toVal g, toVal b)
  else
    let gray := 8 + (idx - 232) * 10
    (gray, gray, gray)

/-- Specification reading of the color-cube arm of the resolver
(indices 16-231), following the spec's formulas. -/
def spec_cube_rgb (idx : Nat) : Nat × Nat × Nat :=
  let n := idx - 16
  let comp := fun (c : Nat) => if c = 0 then 0 else 55 + c * 40
  (comp ((n / 36) % 6), comp ((n / 6) % 6), comp (n % 6))

/-- Specification reading of the grayscale arm of the resolver
(indices 232-255), following the spec's formula. -/
def spec_gray_rgb (idx : Nat) : Nat × Nat × Nat :=
  let gray := 8 + (idx - 232) * 10
  (gray, gray, gray)

/-- Uppercase hexadecimal digit for a value below 16, as produced by
Rust's `{:X}` formatting. -/
def hex_digit_char (n : Nat) : Char :=
  if n < 10 then Char.ofNat (48 + n) else Char.ofNat (55 + n)

/-- Uppercase hexadecimal digits of `n`, most significant first, with no
leading zeros (a single `0` for zero). -/
def hex_digits (n : Nat) : List Char :=
  if h : n < 16 then [hex_digit_char n]
  else hex_digits (n / 16) ++ [hex_digit_char (n % 16)]
termination_by n
decreasing_by
  exact Nat.div_lt_self (by omega) (by omega)

/-- Rust's `{:0wX}` formatting: the uppercase hexadecimal digits of `n`,
left-padded with `0` to a minimum width `w`. -/
def hex_pad (w n : Nat) : String :=
  ⟨List.replicate (w - (hex_digits n).length) '0' ++ hex_digits n⟩

/-- Color of a cell as exposed by the vt100 read interface used in
main.rs: a concrete 24-bit value, a palette index, or the default.  The
vt100 crate stores the components as `u8`, rendered here as `Fin 256`. -/
inductive Color where
  | Rgb (r g b : Fin 256)
  | Idx (idx : Fin 256)
  | Default
deriving DecidableEq

/-- Modelled from the spec: the Cell data model of section 3 backing the
vt100 read interface that `print_hex_state` and `print_text_state`
consult (`contents`, `fgcolor`, `bgcolor`, and the four attribute
flags); the vt100 crate itself is an external dependency. -/
structure Cell where
  contents : String
  fgcolor : Color
  bgcolor : Color
  bold : Bool
  italic : Bool
  underline : Bool
  inverse : Bool

/-- Modelled from the spec: a screen is a `rows x cols` grid of cells;
`cell r c` is what `screen.cell(r, c).unwrap()` yields for in-range
coordinates (every grid position holds exactly one cell). -/
structure Screen where
  rows : Nat
  cols : Nat
  cell : Nat → Nat → Cell

/-- Character of a cell as read by the serializers: the first char of
`contents`, or a space when the contents are empty (main.rs lines 300
and 352). -/
def cell_char (c : Cell) : Char :=
  c.contents.data.head?.getD ' '

/-- Foreground resolution at serialization time (main.rs lines 304-308):
an RGB color passes through, an indexed color goes through
`ansi_to_rgb`, and the default foreground is (240, 240, 240). -/
def resolve_fg : Color → Nat × Nat × Nat
  | Color.Rgb r g b => (r.val, g.val, b.val)
  | Color.Idx i => ansi_to_rgb i.val
  | Color.Default => (240, 240, 240)

/-- Background resolution at serialization time (main.rs lines 311-315):
as for the foreground, except the default background is (0, 0, 0). -/
def resolve_bg : Color → Nat × Nat × Nat
  | Color.Rgb r g b => (r.val, g.val, b.val)
  | Color.Idx i => ansi_to_rgb i.val
  | Color.Default => (0, 0, 0)

/-- Attribute bitset of a cell (main.rs lines 318-333): bold contributes
0x01, italic 0x02, underline 0x04, inverse 0x08, OR'd together. -/
def attrs_byte (c : Cell) : Nat :=
  let a : Nat := 0
  let a := if c.bold then a ||| 1 else a
  let a := if c.italic then a ||| 2 else a
  let a := if c.underline then a ||| 4 else a
  let a := if c.inverse then a ||| 8 else a
  a

/-- Hexadecimal rendering of one resolved RGB triple: three two-digit
uppercase components. -/
def rgb_hex (t : Nat × Nat × Nat) : String :=
  hex_pad 2 t.1 ++ hex_pad 2 t.2.1 ++ hex_pad 2 t.2.2

/-- Hex rendering of one cell (main.rs lines 335-339): the `print!`
format `{:08X}{:02X}{:02X}{:02X}{:02X}{:02X}{:02X}{:02X}` applied to
the codepoint, the resolved foreground, the resolved background, and
the attribute byte. -/
def cell_hex (c : Cell) : String :=
  hex_pad 8 (cell_char c).toNat ++ rgb_hex (resolve_fg c.fgcolor) ++
    rgb_hex (resolve_bg c.bgcolor) ++ hex_pad 2 (attrs_byte c)

/-- Translation of `print_hex_state` (main.rs lines 292-342): every cell
in row-major order, with no separators. -/
def print_hex_state (s : Screen) : String :=
  String.join ((List.range s.rows).map fun row =>
    String.join ((List.range s.cols).map fun col => cell_hex (s.cell row col)))

/-- White-space test of Rust's `char::is_whitespace` (the Unicode
White_Space property), used by `trim_end`. -/
def is_rust_whitespace (c : Char) : Bool :=
  (9 ≤ c.toNat && c.toNat ≤ 13) || c.toNat = 32 || c.toNat = 133 ||
    c.toNat = 160 || c.toNat = 5760 ||
    (8192 ≤ c.toNat && c.toNat ≤ 8202) || c.toNat = 8232 ||
    c.toNat = 8233 || c.toNat = 8239 || c.toNat = 8287 || c.toNat = 12288

/-- Rust's `str::trim_end`: remove all trailing whitespace. -/
def trim_end (s : String) : String :=
  ⟨(s.data.reverse.dropWhile is_rust_whitespace).reverse⟩

/-- One row of the text serialization before trimming (main.rs lines
349-354): the concatenation of the row's cell characters. -/
def row_text (s : Screen) (row : Nat) : String :=
  ⟨(List.range s.cols).map fun col => cell_char (s.cell row col)⟩

/-- Translation of `print_text_state` (main.rs lines 345-359): for every
row, the row text with trailing whitespace trimmed, followed by the
newline that `println!` appends. -/
def print_text_state (s : Screen) : String :=
  String.join ((List.range s.rows).map fun row =>
    trim_end (row_text s row) ++ "\n")

/-- Byte stream handed to the terminal emulator in `main` (main.rs lines
269-274): `parser.process(&filtered)` receives the captured output after
OSC filtering; no other transform is applied to the captured stream. -/
def emulator_input (captured : List Byte) : List Byte :=
  filter_osc_sequences captured

/-- Modelled from the spec's words: the captured bytes after applying
both line-ending normalization and OSC filtering, in the order the
spec's control-flow section suggests (filter, then normalize). -/
def spec_emulator_input (captured : List Byte) : List Byte :=
  normalize_line_endings (filter_osc_sequences captured)

/-- Bytes written to the PTY for the scripted stdin file (main.rs lines
194-199): the file content after line-ending normalization. -/
def stdin_bytes_written (content : List Byte) : List Byte :=
  normalize_line_endings content

/-- Bytes written to the PTY for the scripted keyboard input (main.rs
lines 205-209): the file content after line-ending normalization. -/
def keyboard_bytes_written (content : List Byte) : List Byte :=
  normalize_line_endings content

/-- Outcome of the child-wait loop: whether the child was forcibly
killed, and the elapsed time when the loop broke. -/
structure WaitOutcome where
  killed : Bool
  elapsedMs : Nat

/-- Model of the child-wait loop of `main` (main.rs lines 215-232)
specialized to a child that never exits and never errors: `try_wait`
always reports the child still running, so each iteration either
detects that the timeout has elapsed, kills the child and breaks, or
sleeps 50 ms, modelled by advancing the elapsed time by 50 ms. -/
def wait_never_exiting_child (timeoutMs elapsedMs : Nat) : WaitOutcome :=
  if elapsedMs > timeoutMs then { killed := true, elapsedMs := elapsedMs }
  else wait_never_exiting_child timeoutMs (elapsedMs + 50)
termination_by timeoutMs + 1 - elapsedMs
decreasing_by
  omega

/-- Cell holding no content with default colors and no attributes, the
initial state of every grid position. -/
def blank_cell : Cell :=
  { contents := "", fgcolor := Color.Default, bgcolor := Color.Default,
    bold := false, italic := false, underline := false, inverse := false }

/-- Screen of 25 rows and 80 columns of blank cells. -/
def blank_screen_25x80 : Screen :=
  { rows := 25, cols := 80, cell := fun _ _ => blank_cell }

/-- Screen of 2 rows and 3 columns of blank cells. -/
def blank_screen_2x3 : Screen :=
  { rows := 2, cols := 3, cell := fun _ _ => blank_cell }

/-- Screen of 3 rows and 5 columns showing the scripted ASCII text "Hi"
at the start of row 0, all other cells untouched. -/
def hi_screen : Screen :=
  { rows := 3, cols := 5,
    cell := fun r c =>
      if r = 0 ∧ c = 0 then { blank_cell with contents := "H" }
      else if r = 0 ∧ c = 1 then { blank_cell with contents := "i" }
      else blank_cell }

/-- Screen of one cell whose contents hold the non-printable BEL
character (0x07). -/
def bel_screen : Screen :=
  { rows := 1, cols := 1,
    cell := fun _ _ => { blank_cell with contents := "\x07" } }

lemma normalize_nil : normalize_line_endings [] = [] := by
  simp [normalize_line_endings]

lemma normalize_crlf (rest : List Byte) :
    normalize_line_endings (13 :: 10 :: rest) =
      13 :: 10 :: normalize_line_endings rest := by
  rw [normalize_line_endings]
  simp

lemma normalize_lf (rest : List Byte) :
    normalize_line_endings (10 :: rest) =
      13 :: 10 :: normalize_line_endings rest := by
  rw [normalize_line_endings]
  simp

lemma normalize_other (b : Byte) (rest : List Byte)
    (hb : b ≠ 10) (hcr : ¬ (b = 13 ∧ rest.head? = some 10)) :
    normalize_line_endings (b :: rest) = b :: normalize_line_endings rest := by
  rw [normalize_line_endings]
  rw [if_neg hcr, if_neg hb]

lemma normalize_eq_aux :
    ∀ (n : Nat) (l : List Byte) (p : Option Byte), l.length ≤ n →
      (p = some 13 → l.head? ≠ some 10) →
      normalize_line_endings l = spec_normalize_aux p l := by
  intro n
  induction n with
  | zero =>
    intro l p hlen _
    have : l = [] := by
      cases l with
      | nil => rfl
      | cons b rest => simp at hlen
    subst this
    simp [normalize_nil, spec_normalize_aux]
  | succ n ih =>
    intro l p hlen hp
    cases l with
    | nil => simp [normalize_nil, spec_normalize_aux]
    | cons b rest =>
      by_cases hcr : b = 13 ∧ rest.head? = some 10
      · obtain ⟨hb13, hhead⟩ := hcr
        subst hb13
        cases rest with
        | nil => simp at hhead
        | cons c rest2 =>
          simp only [List.head?_cons, Option.some.injEq] at hhead
          subst hhead
          rw [normalize_crlf]
          have hstep1 : lf_step p 13 = [13] := by
            simp [lf_step]
          have hstep2 : lf_step (some 13) 10 = [10] := by
            simp [lf_step]
          simp only [spec_normalize_aux, hstep1, hstep2]
          simp only [List.cons_append, List.nil_append, List.cons.injEq, true_and]
          exact ih rest2 (some 10) (by simp at hlen; omega) (by simp)
      · by_cases hb : b = 10
        · subst hb
          have hpne : p ≠ some 13 := by
            intro hap
            exact hp hap (by simp)
          rw [normalize_lf]
          have hstep : lf_step p 10 = [13, 10] := by
            simp [lf_step, hpne]
          simp only [spec_normalize_aux, hstep]
          simp only [List.cons_append, List.nil_append, List.cons.injEq, true_and]
          exact ih rest (some 10) (by simp at hlen; omega) (by simp)
        · rw [normalize_other b rest hb hcr]
          have hstep : lf_step p b = [b] := by
            simp [lf_step, hb]
          simp only [spec_normalize_aux, hstep]
          simp only [List.cons_append, List.nil_append, List.cons.injEq, true_and]
          refine ih rest (some b) (by simp at hlen; omega) ?_
          intro hb13
          simp only [Option.some.injEq] at hb13
          intro hhead
          exact hcr ⟨hb13, hhead⟩

lemma normalize_eq_spec (l : List Byte) :
    normalize_line_endings l = spec_normalize l :=
  normalize_eq_aux l.length l none le_rfl (by simp)

lemma normalize_head_ne_lf (l : List Byte) :
    (normalize_line_endings l).head? ≠ some 10 := by
  cases l with
  | nil => simp [normalize_nil]
  | cons b rest =>
    by_cases hcr : b = 13 ∧ rest.head? = some 10
    · obtain ⟨hb13, hhead⟩ := hcr
      subst hb13
      cases rest with
      | nil => simp at hhead
      | cons c rest2 =>
        simp only [List.head?_cons, Option.some.injEq] at hhead
        subst hhead
        rw [normalize_crlf]
        simp
    · by_cases hb : b = 10
      · subst hb
        rw [normalize_lf]
        simp
      · rw [normalize_other b rest hb hcr]
        simp [hb]

lemma normalize_idem_aux :
    ∀ (n : Nat) (l : List Byte), l.length ≤ n →
      normalize_line_endings (normalize_line_endings l) =
        normalize_line_endings l := by
  intro n
  induction n with
  | zero =>
    intro l hlen
    have : l = [] := by
      cases l with
      | nil => rfl
      | cons b rest => simp at hlen
    subst this
    simp [normalize_nil]
  | succ n ih =>
    intro l hlen
    cases l with
    | nil => simp [normalize_nil]
    | cons b rest =>
      by_cases hcr : b = 13 ∧ rest.head? = some 10
      · obtain ⟨hb13, hhead⟩ := hcr
        subst hb13
        cases rest with
        | nil => simp at hhead
        | cons c rest2 =>
          simp only [List.head?_cons, Option.some.injEq] at hhead
          subst hhead
          rw [normalize_crlf, normalize_crlf]
          rw [ih rest2 (by simp at hlen; omega)]
      · by_cases hb : b = 10
        · subst hb
          rw [normalize_lf, normalize_crlf]
          rw [ih rest (by simp at hlen; omega)]
        · rw [normalize_other b rest hb hcr]
          have hno : ¬ (b = 13 ∧ (normalize_line_endings rest).head? = some 10) := by
            rintro ⟨_, habs⟩
            exact normalize_head_ne_lf rest habs
          rw [normalize_other b (normalize_line_endings rest) hb hno]
          rw [ih rest (by simp at hlen; omega)]

lemma normalize_idem (l : List Byte) :
    normalize_line_endings (normalize_line_endings l) =
      normalize_line_endings l :=
  normalize_idem_aux l.length l le_rfl

lemma skip_osc_eq_spec (l : List Byte) : skip_osc l = spec_skip_osc l := by
  induction l with
  | nil => simp [skip_osc, spec_skip_osc, first_osc_terminator]
  | cons b rest ih =>
    by_cases h7 : b = 7
    · subst h7
      simp [skip_osc, spec_skip_osc, first_osc_terminator]
    · by_cases hesc : b = 27 ∧ rest.head? = some 92
      · simp only [skip_osc, spec_skip_osc, first_osc_terminator,
          if_neg h7, if_pos hesc]
        cases rest with
        | nil => simp at hesc
        | cons c rest2 => simp
      · simp only [skip_osc, spec_skip_osc, first_osc_terminator,
          if_neg h7, if_neg hesc]
        rw [ih]
        unfold spec_skip_osc
        cases hft : first_osc_terminator rest with
        | none => simp
        | some k => simp [List.drop_succ_cons]

lemma skip_osc_no_term (l : List Byte) (h : first_osc_terminator l = none) :
    skip_osc l = [] := by
  rw [skip_osc_eq_spec]
  simp [spec_skip_osc, h]

lemma filter_osc_nil : filter_osc_sequences [] = [] := by
  simp [filter_osc_sequences]

lemma filter_osc_osc_start (rest : List Byte) :
    filter_osc_sequences (27 :: 93 :: rest) =
      filter_osc_sequences (skip_osc rest) := by
  rw [filter_osc_sequences]
  simp

lemma filter_osc_pass (b : Byte) (rest : List Byte)
    (h : ¬ (b = 27 ∧ rest.head? = some 93)) :
    filter_osc_sequences (b :: rest) = b :: filter_osc_sequences rest := by
  rw [filter_osc_sequences]
  rw [if_neg h]

set_option maxRecDepth 4000 in
lemma ansi_to_rgb_lt_256 :
    ∀ i : Fin 256, (ansi_to_rgb i.val).1 < 256 ∧
      (ansi_to_rgb i.val).2.1 < 256 ∧ (ansi_to_rgb i.val).2.2 < 256 := by
  decide

lemma hex_digits_length_le :
    ∀ (w n : Nat), 1 ≤ w → n < 16 ^ w → (hex_digits n).length ≤ w := by
  intro w
  induction w with
  | zero => omega
  | succ w ih =>
    intro n _ hlt
    by_cases h : n < 16
    · rw [hex_digits, dif_pos h]
      simp
    · rw [hex_digits, dif_neg h]
      have hw1 : 1 ≤ w := by
        by_contra hw
        have : w = 0 := by omega
        subst this
        simp at hlt
        omega
      have hdiv : n / 16 < 16 ^ w := by
        have h' : n < 16 * 16 ^ w := by
          rw [pow_succ] at hlt
          omega
        exact Nat.div_lt_of_lt_mul h'
      have := ih (n / 16) hw1 hdiv
      simp only [List.length_append, List.length_cons, List.length_nil]
      omega

lemma hex_pad_length (w n : Nat) (hw : 1 ≤ w) (hn : n < 16 ^ w) :
    (hex_pad w n).length = w := by
  have hle := hex_digits_length_le w n hw hn
  simp only [hex_pad, String.length]
  simp only [List.length_append, List.length_replicate]
  omega

lemma hex_digit_char_mem (n : Nat) (h : n < 16) :
    hex_digit_char n ∈ "0123456789ABCDEF".data := by
  have : ∀ i : Fin 16, hex_digit_char i.val ∈ "0123456789ABCDEF".data := by
    decide
  exact this ⟨n, h⟩

lemma hex_digits_mem :
    ∀ (n : Nat) (c : Char), c ∈ hex_digits n → c ∈ "0123456789ABCDEF".data := by
  intro n
  induction n using Nat.strong_induction_on with
  | _ n ih =>
    intro c hc
    by_cases h : n < 16
    · rw [hex_digits, dif_pos h] at hc
      simp only [List.mem_singleton] at hc
      subst hc
      exact hex_digit_char_mem n h
    · rw [hex_digits, dif_neg h] at hc
      rcases List.mem_append.mp hc with h1 | h2
      · exact ih (n / 16) (Nat.div_lt_self (by omega) (by omega)) c h1
      · simp only [List.mem_singleton] at h2
        subst h2
        exact hex_digit_char_mem (n % 16) (Nat.mod_lt n (by omega))

lemma hex_pad_mem (w n : Nat) (c : Char) (hc : c ∈ (hex_pad w n).data) :
    c ∈ "0123456789ABCDEF".data := by
  simp only [hex_pad] at hc
  rcases List.mem_append.mp hc with h1 | h2
  · have := List.eq_of_mem_replicate h1
    subst this
    decide
  · exact hex_digits_mem n c h2

lemma foldl_append_length :
    ∀ (l : List String) (s : String),
      (l.foldl (fun r t => r ++ t) s).length =
        s.length + (l.map String.length).sum := by
  intro l
  induction l with
  | nil => intro s; simp
  | cons a l ih =>
    intro s
    simp only [List.foldl_cons, List.map_cons, List.sum_cons]
    rw [ih (s ++ a), String.length_append]
    omega

lemma join_length (l : List String) :
    (String.join l).length = (l.map String.length).sum := by
  simp only [String.join]
  rw [foldl_append_length]
  simp

lemma resolve_fg_lt (c : Color) :
    (resolve_fg c).1 < 256 ∧ (resolve_fg c).2.1 < 256 ∧
      (resolve_fg c).2.2 < 256 := by
  cases c with
  | Rgb r g b => exact ⟨r.isLt, g.isLt, b.isLt⟩
  | Idx i => exact ansi_to_rgb_lt_256 i
  | Default => exact ⟨by decide, by decide, by decide⟩

lemma resolve_bg_lt (c : Color) :
    (resolve_bg c).1 < 256 ∧ (resolve_bg c).2.1 < 256 ∧
      (resolve_bg c).2.2 < 256 := by
  cases c with
  | Rgb r g b => exact ⟨r.isLt, g.isLt, b.isLt⟩
  | Idx i => exact ansi_to_rgb_lt_256 i
  | Default => exact ⟨by decide, by decide, by decide⟩

lemma attrs_byte_lt (c : Cell) : attrs_byte c < 256 := by
  unfold attrs_byte
  split_ifs <;> decide

lemma rgb_hex_length (t : Nat × Nat × Nat)
    (h1 : t.1 < 256) (h2 : t.2.1 < 256) (h3 : t.2.2 < 256) :
    (rgb_hex t).length = 6 := by
  simp only [rgb_hex, String.length_append]
  rw [hex_pad_length 2 t.1 (by norm_num) (by norm_num; omega),
    hex_pad_length 2 t.2.1 (by norm_num) (by norm_num; omega),
    hex_pad_length 2 t.2.2 (by norm_num) (by norm_num; omega)]

lemma char_toNat_lt (c : Char) : c.toNat < 16 ^ 8 := by
  have h := c.val.toNat_lt
  simp only [Char.toNat]
  norm_num
  omega

lemma cell_hex_length (c : Cell) : (cell_hex c).length = 22 := by
  have hfg := resolve_fg_lt c.fgcolor
  have hbg := resolve_bg_lt c.bgcolor
  simp only [cell_hex, String.length_append]
  rw [hex_pad_length 8 (cell_char c).toNat (by norm_num) (char_toNat_lt _),
    rgb_hex_length _ hfg.1 hfg.2.1 hfg.2.2,
    rgb_hex_length _ hbg.1 hbg.2.1 hbg.2.2,
    hex_pad_length 2 (attrs_byte c) (by norm_num)
      (by have := attrs_byte_lt c; norm_num; omega)]

lemma print_hex_state_length (s : Screen) :
    (print_hex_state s).length = s.rows * s.cols * 22 := by
  simp only [print_hex_state]
  rw [join_length]
  simp only [List.map_map]
  have hrow : ∀ row : Nat,
      (String.join ((List.range s.cols).map fun col =>
        cell_hex (s.cell row col))).length = s.cols * 22 := by
    intro row
    rw [join_length]
    simp only [List.map_map]
    have : ((List.range s.cols).map
        (String.length ∘ fun col => cell_hex (s.cell row col))) =
        (List.range s.cols).map (fun _ => 22) := by
      apply List.map_congr_left
      intro col _
      exact cell_hex_length (s.cell row col)
    rw [this, List.map_const', List.sum_replicate]
    simp [List.length_range, smul_eq_mul]
  have : ((List.range s.rows).map
      ((String.length ∘ fun row => String.join ((List.range s.cols).map
        fun col => cell_hex (s.cell row col))))) =
      (List.range s.rows).map (fun _ => s.cols * 22) := by
    apply List.map_congr_left
    intro row _
    exact hrow row
  rw [this, List.map_const', List.sum_replicate]
  simp [List.length_range, smul_eq_mul]
  ring

lemma trim_end_of_all_blank (s : String)
    (h : ∀ ch ∈ s.data, ch = ' ') : trim_end s = "" := by
  have hdrop : s.data.reverse.dropWhile is_rust_whitespace = [] := by
    rw [List.dropWhile_eq_nil_iff]
    intro ch hch
    have := h ch (List.mem_reverse.mp hch)
    subst this
    decide
  simp only [trim_end, hdrop, List.reverse_nil]

lemma blank_row_renders_empty (s : Screen) (row : Nat)
    (h : ∀ col, col < s.cols → cell_char (s.cell row col) = ' ') :
    trim_end (row_text s row) = "" := by
  apply trim_end_of_all_blank
  intro ch hch
  simp only [row_text, List.mem_map, List.mem_range] at hch
  obtain ⟨col, hcol, hc⟩ := hch
  rw [← hc]
  exact h col hcol

lemma hex_digits_small (n : Nat) (h : n < 16) :
    hex_digits n = [hex_digit_char n] := by
  rw [hex_digits]
  exact dif_pos h

lemma hex_digits_step (n : Nat) (h : ¬ n < 16) :
    hex_digits n = hex_digits (n / 16) ++ [hex_digit_char (n % 16)] := by
  rw [hex_digits]
  exact dif_neg h

lemma hex_pad_two_240 : hex_pad 2 240 = "F0" := by
  have h : hex_digits 240 = ['F', '0'] := by
    rw [hex_digits_step 240 (by norm_num)]
    norm_num
    rw [hex_digits_small 15 (by norm_num)]
    decide
  simp [hex_pad, h]

lemma hex_pad_two_0 : hex_pad 2 0 = "00" := by
  have h : hex_digits 0 = ['0'] := by
    rw [hex_digits_small 0 (by norm_num)]
    decide
  simp [hex_pad, h]

lemma rgb_hex_fg_default : rgb_hex (resolve_fg Color.Default) = "F0F0F0" := by
  have : resolve_fg Color.Default = (240, 240, 240) := rfl
  rw [this]
  simp only [rgb_hex, hex_pad_two_240]
  decide

lemma rgb_hex_bg_default : rgb_hex (resolve_bg Color.Default) = "000000" := by
  have : resolve_bg Color.Default = (0, 0, 0) := rfl
  rw [this]
  simp only [rgb_hex, hex_pad_two_0]
  decide

lemma hex_pad_all_hex (w n : Nat) :
    ∀ x ∈ (hex_pad w n).data, x ∈ "0123456789ABCDEF".data :=
  fun x hx => hex_pad_mem w n x hx

lemma append_all_hex (a b : String)
    (ha : ∀ x ∈ a.data, x ∈ "0123456789ABCDEF".data)
    (hb : ∀ x ∈ b.data, x ∈ "0123456789ABCDEF".data) :
    ∀ x ∈ (a ++ b).data, x ∈ "0123456789ABCDEF".data := by
  intro x hx
  rw [String.data_append] at hx
  rcases List.mem_append.mp hx with h | h
  · exact ha x h
  · exact hb x h

lemma rgb_hex_all_hex (t : Nat × Nat × Nat) :
    ∀ x ∈ (rgb_hex t).data, x ∈ "0123456789ABCDEF".data := by
  unfold rgb_hex
  exact append_all_hex _ _
    (append_all_hex _ _ (hex_pad_all_hex _ _) (hex_pad_all_hex _ _))
    (hex_pad_all_hex _ _)

lemma cell_hex_data_hex (c : Cell) :
    ∀ ch ∈ (cell_hex c).data, ch ∈ "0123456789ABCDEF".data := by
  unfold cell_hex
  exact append_all_hex _ _
    (append_all_hex _ _
      (append_all_hex _ _ (hex_pad_all_hex _ _) (rgb_hex_all_hex _))
      (rgb_hex_all_hex _))
    (hex_pad_all_hex _ _)

lemma wait_kills_and_exceeds :
    ∀ (k t e : Nat), t + 1 - e ≤ k →
      (wait_never_exiting_child t e).killed = true ∧
        t < (wait_never_exiting_child t e).elapsedMs := by
  intro k
  induction k with
  | zero =>
    intro t e hk
    have he : e > t := by omega
    rw [wait_never_exiting_child, if_pos he]
    exact ⟨rfl, he⟩
  | succ k ih =>
    intro t e hk
    by_cases he : e > t
    · rw [wait_never_exiting_child, if_pos he]
      exact ⟨rfl, he⟩
    · rw [wait_never_exiting_child, if_neg he]
      exact ih t (e + 50) (by omega)

lemma wait_elapsed_le :
    ∀ (k t e : Nat), t + 1 - e ≤ k → e ≤ t + 50 →
      (wait_never_exiting_child t e).elapsedMs ≤ t + 50 := by
  intro k
  induction k with
  | zero =>
    intro t e hk he
    have h : e > t := by omega
    rw [wait_never_exiting_child, if_pos h]
    exact he
  | succ k ih =>
    intro t e hk he
    by_cases h : e > t
    · rw [wait_never_exiting_child, if_pos h]
      exact he
    · rw [wait_never_exiting_child, if_neg h]
      exact ih t (e + 50) (by omega) (by omega)

/-- Claim C1: the hex serialization emits, for each cell in row-major
order, exactly 22 hexadecimal characters (8 for the codepoint, 6 for
the resolved foreground RGB, 6 for the resolved background RGB, 2 for
the attribute bitset) with no separators, so the total output length is
rows * cols * 22 characters (44000 for a 25x80 screen), independent of
content. -/
theorem hex_serialization_format :
    (∀ c : Cell, (cell_hex c).length = 22) ∧
    (∀ c : Cell, ∀ ch ∈ (cell_hex c).data, ch ∈ "0123456789ABCDEF".data) ∧
    (∀ s : Screen, (print_hex_state s).length = s.rows * s.cols * 22) ∧
    (∀ s : Screen, s.rows = 25 → s.cols = 80 →
      (print_hex_state s).length = 44000) := by
  refine ⟨cell_hex_length, cell_hex_data_hex, print_hex_state_length, ?_⟩
  intro s h25 h80
  rw [print_hex_state_length, h25, h80]

/-- Witness for claim C1 at a concrete 25x80 screen. -/
theorem hex_serialization_format_witness :
    (print_hex_state blank_screen_25x80).length = 44000 :=
  hex_serialization_format.2.2.2 blank_screen_25x80 rfl rfl

/-- Claim C2 counterexample: for the captured byte sequence [0x0A], the
stream handed to the emulator is [0x0A] itself, while applying both
line-ending normalization and OSC filtering (in either order) yields
[0x0D, 0x0A]; the claim as stated is false. -/
theorem emulator_input_counterexample :
    emulator_input [10] = [10] ∧
    spec_emulator_input [10] = [13, 10] ∧
    filter_osc_sequences (normalize_line_endings [10]) = [13, 10] ∧
    emulator_input [10] ≠ spec_emulator_input [10] := by
  have hf10 : filter_osc_sequences [10] = [10] := by
    rw [filter_osc_pass 10 [] (by decide), filter_osc_nil]
  have hn : normalize_line_endings [10] = [13, 10] := by
    rw [normalize_lf, normalize_nil]
  have hf1310 : filter_osc_sequences [13, 10] = [13, 10] := by
    rw [filter_osc_pass 13 [10] (by decide),
      filter_osc_pass 10 [] (by decide), filter_osc_nil]
  refine ⟨hf10, ?_, ?_, ?_⟩
  · unfold spec_emulator_input
    rw [hf10, hn]
  · rw [hn, hf1310]
  · unfold emulator_input spec_emulator_input
    rw [hf10, hn]
    decide

/-- Claim C2 (amended): the stream handed to the emulator equals the
captured bytes after OSC filtering only; line-ending normalization is
applied to the scripted stdin and keyboard bytes written to the PTY,
never to the captured output. -/
theorem emulator_input_amended :
    (∀ captured : List Byte,
      emulator_input captured = filter_osc_sequences captured) ∧
    (∀ content : List Byte,
      stdin_bytes_written content = normalize_line_endings content) ∧
    (∀ content : List Byte,
      keyboard_bytes_written content = normalize_line_endings content) ∧
    emulator_input [10] = [10] := by
  refine ⟨fun _ => rfl, fun _ => rfl, fun _ => rfl, ?_⟩
  show filter_osc_sequences [10] = [10]
  rw [filter_osc_pass 10 [] (by decide), filter_osc_nil]

/-- Claim C3: filter_osc passes bytes through unchanged outside OSC
spans; from an ESC ] prefix (27, 93) it discards everything up to and
including the first BEL or ESC-backslash terminator; an unterminated
OSC is dropped to end-of-input without error; and on
ESC ] "0;title" BEL "A" the output is exactly "A". -/
theorem filter_osc_spec :
    (∀ (b : Byte) (rest : List Byte), ¬ (b = 27 ∧ rest.head? = some 93) →
      filter_osc_sequences (b :: rest) = b :: filter_osc_sequences rest) ∧
    (∀ rest : List Byte, filter_osc_sequences (27 :: 93 :: rest) =
      filter_osc_sequences (spec_skip_osc rest)) ∧
    (∀ rest : List Byte, first_osc_terminator rest = none →
      filter_osc_sequences (27 :: 93 :: rest) = []) ∧
    filter_osc_sequences [27, 93, 48, 59, 116, 105, 116, 108, 101, 7, 65] =
      [65] := by
  refine ⟨filter_osc_pass, ?_, ?_, ?_⟩
  · intro rest
    rw [filter_osc_osc_start, skip_osc_eq_spec]
  · intro rest h
    rw [filter_osc_osc_start, skip_osc_no_term rest h, filter_osc_nil]
  · rw [filter_osc_osc_start]
    have h : skip_osc [48, 59, 116, 105, 116, 108, 101, 7, 65] = [65] := by
      decide
    rw [h, filter_osc_pass 65 [] (by decide), filter_osc_nil]

/-- Witness for claim C3 at concrete inputs: a pass-through byte and an
unterminated OSC sequence. -/
theorem filter_osc_spec_witness :
    filter_osc_sequences [65, 66] = 65 :: filter_osc_sequences [66] ∧
    filter_osc_sequences [27, 93, 48, 49] = [] :=
  ⟨filter_osc_spec.1 65 [66] (by decide),
    filter_osc_spec.2.2.1 [48, 49] (by decide)⟩

/-- Claim C4: normalize_line_endings rewrites each lone `\n` (one not
immediately preceded by `\r`) to `\r\n`, preserves every `\r\n` pair,
preserves every lone `\r`, and passes all other bytes through
unchanged: it agrees with the positional specification spec_normalize,
and behaves so on concrete inputs. -/
theorem normalize_line_endings_spec :
    (∀ l : List Byte, normalize_line_endings l = spec_normalize l) ∧
    normalize_line_endings [65, 10, 66] = [65, 13, 10, 66] ∧
    normalize_line_endings [13, 10] = [13, 10] ∧
    normalize_line_endings [13] = [13] := by
  refine ⟨normalize_eq_spec, ?_, ?_, ?_⟩
  · rw [normalize_other 65 _ (by decide) (by decide), normalize_lf,
      normalize_other 66 [] (by decide) (by decide), normalize_nil]
  · rw [normalize_crlf, normalize_nil]
  · rw [normalize_other 13 [] (by decide) (by decide), normalize_nil]

/-- Claim C5: normalize_line_endings is idempotent — applying it twice
yields the same result as applying it once, for every byte sequence. -/
theorem normalize_line_endings_idempotent :
    ∀ l : List Byte,
      normalize_line_endings (normalize_line_endings l) =
        normalize_line_endings l :=
  normalize_idem

set_option maxRecDepth 8000 in
/-- Claim C6: indexed_to_rgb returns the fixed palette triples for 0-15
(in particular (205,49,49) at 1 and (241,76,76) at 9), the color-cube
values of the spec's formula for 16-231 (in particular (255,0,0) at
196), and the grayscale ramp 8 + (idx-232)*10 for 232-255 (in
particular (128,128,128) at 244). -/
theorem ansi_to_rgb_spec :
    ansi_to_rgb 1 = (205, 49, 49) ∧
    ansi_to_rgb 9 = (241, 76, 76) ∧
    ansi_to_rgb 196 = (255, 0, 0) ∧
    ansi_to_rgb 244 = (128, 128, 128) ∧
    (∀ i : Fin 216, ansi_to_rgb (16 + i.val) = spec_cube_rgb (16 + i.val)) ∧
    (∀ i : Fin 24, ansi_to_rgb (232 + i.val) = spec_gray_rgb (232 + i.val)) := by
  refine ⟨by decide, by decide, by decide, by decide, by decide, by decide⟩

/-- Claim C7: at serialization time a Default foreground resolves to
(240,240,240) and a Default background to (0,0,0); resolution is a pure
function of the stored colors, applied only while rendering the hex
string, leaving the Cell unchanged. -/
theorem default_color_resolution :
    resolve_fg Color.Default = (240, 240, 240) ∧
    resolve_bg Color.Default = (0, 0, 0) ∧
    (∀ c : Cell, c.fgcolor = Color.Default → c.bgcolor = Color.Default →
      cell_hex c = hex_pad 8 (cell_char c).toNat ++ "F0F0F0" ++ "000000" ++
        hex_pad 2 (attrs_byte c)) := by
  refine ⟨rfl, rfl, ?_⟩
  intro c h1 h2
  unfold cell_hex
  rw [h1, h2, rgb_hex_fg_default, rgb_hex_bg_default]

/-- Witness for claim C7 at the blank cell, whose colors are both
Default. -/
theorem default_color_resolution_witness :
    cell_hex blank_cell = hex_pad 8 (cell_char blank_cell).toNat ++
      "F0F0F0" ++ "000000" ++ hex_pad 2 (attrs_byte blank_cell) :=
  default_color_resolution.2.2 blank_cell rfl rfl

/-- Claim C8 counterexample: a cell whose contents hold the
non-printable BEL character contributes BEL itself, not a space: the
text serialization of the one-cell BEL screen is the BEL character
followed by a newline, where the claim's reading (non-printable
contributes a space, then trailing whitespace is stripped) would give a
bare newline. -/
theorem text_serialization_nonprintable_counterexample :
    cell_char { blank_cell with contents := "\x07" } = '\x07' ∧
    print_text_state bel_screen = "\x07\n" ∧
    print_text_state bel_screen ≠ "\n" := by
  refine ⟨by decide, by decide, by decide⟩

/-- Claim C8 (amended): the text serialization emits one line per row — the
concatenation of the row's cell characters (a cell with empty contents
contributes a space) with trailing whitespace stripped — so a short
ASCII text in row 0 renders as that text with trailing spaces trimmed
and all other rows empty. -/
theorem text_serialization_spec :
    (∀ cl : Cell, cl.contents = "" → cell_char cl = ' ') ∧
    (∀ (s : Screen) (row : Nat),
      (∀ col, col < s.cols → cell_char (s.cell row col) = ' ') →
      trim_end (row_text s row) = "") ∧
    print_text_state hi_screen = "Hi\n\n\n" := by
  refine ⟨?_, blank_row_renders_empty, by decide⟩
  intro cl h
  unfold cell_char
  rw [h]
  decide

/-- Witness for claim C8 at the blank cell and a concrete all-blank
screen. -/
theorem text_serialization_spec_witness :
    cell_char blank_cell = ' ' ∧ trim_end (row_text blank_screen_2x3 0) = "" :=
  ⟨text_serialization_spec.1 blank_cell rfl,
    text_serialization_spec.2.1 blank_screen_2x3 0 (fun _ _ => rfl)⟩

/-- Claim C9: for a child process that never exits and never produces
output, the 50 ms polling loop terminates (the model function is total),
the child is forcibly killed, and the loop breaks only once the
configured timeout has elapsed — within one 50 ms poll interval past
it — after which the run proceeds with whatever was captured. -/
theorem wait_loop_timeout :
    ∀ timeoutMs : Nat,
      (wait_never_exiting_child timeoutMs 0).killed = true ∧
      timeoutMs < (wait_never_exiting_child timeoutMs 0).elapsedMs ∧
      (wait_never_exiting_child timeoutMs 0).elapsedMs ≤ timeoutMs + 50 := by
  intro t
  exact ⟨(wait_kills_and_exceeds (t + 1) t 0 (by omega)).1,
    (wait_kills_and_exceeds (t + 1) t 0 (by omega)).2,
    wait_elapsed_le (t + 1) t 0 (by omega) (by omega)⟩

/-- Claim C10: the scripted stdin-file bytes and keyboard-input bytes
are each passed through normalize_line_endings before being written to
the pseudo-terminal, so a lone `\n` in either file is delivered to the
child as `\r\n` rather than verbatim. -/
theorem scripted_input_normalized :
    (∀ content : List Byte,
      stdin_bytes_written content = normalize_line_endings content) ∧
    (∀ content : List Byte,
      keyboard_bytes_written content = normalize_line_endings content) ∧
    (∀ content : List Byte, stdin_bytes_written content = spec_normalize content) ∧
    (∀ content : List Byte,
      keyboard_bytes_written content = spec_normalize content) ∧
    stdin_bytes_written [10] = [13, 10] ∧
    keyboard_bytes_written [10] = [13, 10] ∧
    stdin_bytes_written [10] ≠ [10] := by
  have h10 : normalize_line_endings [10] = [13, 10] := by
    rw [normalize_lf, normalize_nil]
  refine ⟨fun _ => rfl, fun _ => rfl, fun c => normalize_eq_spec c,
    fun c => normalize_eq_spec c, h10, h10, ?_⟩
  show normalize_line_endings [10] ≠ [10]
  rw [h10]
  decide

end PtyRunner
